import Mathlib

/-!
# Verification of the Clock Kanban reconciliation core

Shallow embedding of the reconciliation core of the `obsidian-kanban-clock`
plugin.  Strings are modelled as `List Char` (a document is a `List (List Char)`
of newline-split lines, exactly as the code always works on `content.split('\n')`).

The embedded functions mirror, statement by statement:
  * `manageClockProperty` (interval open / close on the lines below a task),
  * `queueFileAction` (the per-path promise-chain mutation queue),
  * `findTaskInLines` (the task locator),
  * `checkIfTaskIsClockedIn` (open-interval detection below a task line),
  * `parseTasks` / `mapStatus` / the completed-task filter (`KanbanView.ts`),
  * `handleTaskMove` (the transition controller's enqueue order).

The two regular expressions of the source are modelled by deterministic
scanners; the regexes are deterministic (no effective backtracking), which the
comments at each definition justify.
-/

namespace ClockKanban

/-- The literal characters `[clock::` opening every interval token. -/
def tagChars : List Char := ['[', 'c', 'l', 'o', 'c', 'k', ':', ':']

/-- Six spaces: the fixed indentation `'      '` used when inserting a fresh
annotation line (`const indentation = '      '`). -/
def ind6 : List Char := [' ', ' ', ' ', ' ', ' ', ' ']

/-- JS `\s` on the characters that can actually occur in a newline-split line
(ASCII whitespace; lines contain no `'\n'`). -/
def wsChar (c : Char) : Bool :=
  c = ' ' || c = '\t' || c = '\n' || c = '\r' || c = '\x0b' || c = '\x0c'

/-- Drop leading whitespace, i.e. a leading `\s*`. -/
def dropWs (s : List Char) : List Char := s.dropWhile wsChar

/-- One token of the annotation-line grammar: `\[clock::[^\]]+\]`.
`[^\]]+` is greedy and its only possible stop is the first `]`, so the body is
the run of characters up to the first `]` (`takeWhile`), the remainder starts
at that first `]` (`dropWhile`), and the token fails if the body is empty or
the string ends before a `]`.  Returns the rest of the line after the token. -/
def parseClockToken (s : List Char) : Option (List Char) :=
  if s.take 8 = tagChars then
    match (s.drop 8).dropWhile (fun c => c ≠ ']') with
    | ']' :: r2 =>
      if (s.drop 8).takeWhile (fun c => c ≠ ']') = [] then none else some r2
    | _ => none
  else none

/-- The repetition `(\[clock::[^\]]+\]\s*)+$` : one or more tokens, each followed by `\s*`,
consuming the whole line.  Each token consumes at least ten characters, so a
fuel of `length + 1` can never be exhausted before the string is. -/
def annotTokens : List Char → Nat → Bool
  | _, 0 => false
  | s, fuel + 1 =>
    match parseClockToken s with
    | none => false
    | some r => if dropWs r = [] then true else annotTokens (dropWs r) fuel

/-- Whole-line test `/^\s*(\[clock::[^\]]+\]\s*)+$/` deciding whether a line is
an annotation-only line (the "annotation run" grammar). -/
def isAnnotLine (s : List Char) : Bool :=
  annotTokens (dropWs s) (s.length + 1)

/-- The greedy body of the open-interval regex `/\[clock::((?:(?!\]|--).)+)\]/`
together with the remainder: consume characters while the current position is
neither a `]` nor the start of `--`; the first component is the consumed body,
the second the rest of the string from the stop position on. -/
def openBodySplit : List Char → List Char × List Char
  | [] => ([], [])
  | c :: rest =>
    if c = ']' then ([], c :: rest)
    else if c = '-' ∧ rest.head? = some '-' then ([], c :: rest)
    else (c :: (openBodySplit rest).1, (openBodySplit rest).2)

/-- Attempt to match `\[clock::((?:(?!\]|--).)+)\]` at the start of `s`.
On success returns the captured body and the rest of the string after the
match.  Backtracking inside the body cannot help: every shorter stop position
holds a character that is not `]` (it was consumed by `.`), so the match
succeeds exactly when the greedy body is nonempty and stops at a `]`. -/
def matchOpenAt (s : List Char) : Option (List Char × List Char) :=
  if s.take 8 = tagChars then
    match (openBodySplit (s.drop 8)).2 with
    | ']' :: after =>
      if (openBodySplit (s.drop 8)).1 = [] then none
      else some ((openBodySplit (s.drop 8)).1, after)
    | _ => none
  else none

/-- The test `openClockRegex.test(line)` : does an open-interval token occur anywhere in
the line (leftmost-match existence = existence at some suffix)? -/
def hasOpenClock : List Char → Bool
  | [] => false
  | c :: rest => (matchOpenAt (c :: rest)).isSome || hasOpenClock rest

/-- The global-`exec` loop of `manageClockProperty` : all non-overlapping
matches of the open-interval regex, left to right, with their start indices and
captured bodies.  A successful match of body `b` consumes `b.length + 9`
characters (`[clock::` + body + `]`); on failure the scan advances one
character.  Each step shortens the string, so fuel `length + 1` never runs
out. -/
def openMatchesAux : Nat → List Char → Nat → List (Nat × List Char)
  | 0, _, _ => []
  | _ + 1, [], _ => []
  | fuel + 1, c :: rest, i =>
    match matchOpenAt (c :: rest) with
    | some (b, after) => (i, b) :: openMatchesAux fuel after (i + (b.length + 9))
    | none => openMatchesAux fuel rest (i + 1)

/-- All matches of the open-interval regex in a line (`regex.exec` loop). -/
def openMatches (s : List Char) : List (Nat × List Char) :=
  openMatchesAux (s.length + 1) s 0

/-! ## Interval Annotator (`manageClockProperty`, resolved-line core) -/

/-- The contiguous run of annotation-only lines directly below line `i`
(the `while (idx < lines.length && annotRegex.test(lines[idx]))` scans). -/
def annotRunBelow (lines : List (List Char)) (i : Nat) : List (List Char) :=
  (lines.drop (i + 1)).takeWhile isAnnotLine

/-- Embeds `manageClockProperty(type = 'start')` once the task line has been resolved
to index `i` : insert `'      ' + '[clock::' + ts + ']'` after the task line
and any existing annotation lines.  `splice(insertIndex, 0, x)` inserts at
`min(insertIndex, length)`, which `take`/`drop` reproduce. -/
def clockOpenAt (lines : List (List Char)) (i : Nat) (ts : List Char) :
    List (List Char) :=
  lines.take (i + 1 + (annotRunBelow lines i).length) ++
    (ind6 ++ tagChars ++ ts ++ [']']) ::
      lines.drop (i + 1 + (annotRunBelow lines i).length)

/-- Index of the last annotation line below `i` containing an open token
(`lastOpenClockIndex`, or `none` for `-1`); `j` is the index of the head of
the suffix being scanned. -/
def lastOpenAux : List (List Char) → Nat → Option Nat
  | [], _ => none
  | l :: rest, j =>
    if isAnnotLine l then
      match lastOpenAux rest (j + 1) with
      | some k => some k
      | none => if hasOpenClock l then some j else none
    else none

/-- Rewrite of the found annotation line: the last global match (index and
captured start) is replaced in place by the closed token, the text before and
after it kept verbatim (`before + closedClock + after`); if the guard finds no
match, the line is returned unchanged. -/
def rewriteLastOpen (line : List Char) (ts : List Char) : List Char :=
  match (openMatches line).getLast? with
  | none => line
  | some (idx, b) =>
    line.take idx ++ tagChars ++ b ++ ['-', '-'] ++ ts ++ [']'] ++
      line.drop (idx + (b.length + 9))

/-- Embeds `manageClockProperty(type = 'end')` once the task line has been resolved to
index `i` : find the last annotation line below the task containing an open
token, rewrite its last open token to `[clock::<start>--<ts>]` in place, leave
everything else untouched; a no-op when no open token exists. -/
def clockCloseAt (lines : List (List Char)) (i : Nat) (ts : List Char) :
    List (List Char) :=
  match lastOpenAux (lines.drop (i + 1)) (i + 1) with
  | none => lines
  | some j => lines.set j (rewriteLastOpen (lines.getD j []) ts)

/-- A well-formed timestamp for the open-token grammar: nonempty, no `]`, no
`--` (every `moment().format('YYYY-MM-DDTHH:mm:ss')` output satisfies this). -/
def noDD : List Char → Bool
  | [] => true
  | [_] => true
  | a :: b :: rest => !(a = '-' && b = '-') && noDD (b :: rest)

/-- Well-formedness of a timestamp string as used inside an interval token. -/
def wfTimestamp (t : List Char) : Bool :=
  !t.isEmpty && !t.contains ']' && noDD t

/-! ## Task Locator (`findTaskInLines`) -/

/-- JS `String.prototype.includes` : `sub` occurs somewhere in `s`. -/
def containsSub (s sub : List Char) : Bool :=
  s.tails.any (fun t => sub.isPrefixOf t)

/-- The task-marker characters `'- ['`. -/
def markerChars : List Char := ['-', ' ', '[']

/-- A line matching both the task marker syntax and the description substring
(`lines[i].includes(description) && lines[i].includes('- [')`). -/
def lineMatches (l desc : List Char) : Bool :=
  containsSub l desc && containsSub l markerChars

/-- The full linear scan of `findTaskInLines` (`for (let i = 0; ...)`),
returning the index of the first matching line, offset by `j`, else `-1`. -/
def scanLines : List (List Char) → List Char → Nat → Int
  | [], _, _ => -1
  | l :: rest, desc, j =>
    if lineMatches l desc then (j : Int) else scanLines rest desc (j + 1)

/-- Embeds `findTaskInLines(lines, description, startIndex)` : the fast path keeps the
last-known index when in bounds and still matching; otherwise the first
matching line of a full scan; otherwise `-1`. -/
def findTaskInLines (lines : List (List Char)) (desc : List Char)
    (startIndex : Int) : Int :=
  if 0 ≤ startIndex ∧ startIndex < (lines.length : Int) ∧
      lineMatches (lines.getD startIndex.toNat []) desc then
    startIndex
  else
    scanLines lines desc 0

/-! ## Data model (`types.ts` + the settings actually read by the core) -/

/-- Derived task status enum. -/
inductive TaskStatus where
  | todo
  | in_progress
  | done
  | cancelled
deriving DecidableEq, Repr

/-- A configured column: display / lookup `name` and the persisted status
`symbol` (both strings in the source). -/
structure ColumnConfig where
  name : List Char
  symbol : List Char
deriving DecidableEq, Repr

/-- The settings fields read by the reconciliation core. -/
structure Settings where
  autoClockInOut : Bool
  clockColumn : List Char
  showCompletedTasks : Bool
  columns : List ColumnConfig
deriving Repr

/-- The in-memory task attributes the reconciliation core reads or writes
(display-only fields — id, tags, priority, dueDate, cached times — are not
mentioned by any claim and are omitted). -/
structure Task where
  description : List Char
  column : List Char
  status : TaskStatus
  sourcePath : List Char
  lineNumber : Int
  isClockedIn : Bool
deriving DecidableEq, Repr

/-- A raw record from the external task index, as read by `parseTasks`. -/
structure RawRecord where
  symbol : List Char
  description : List Char
  path : List Char
  lineNumber : Int
  isClockedIn : Bool
deriving Repr

/-! ## Status Mapper and Task Ingestion (`KanbanView.ts`) -/

/-- The literal `'TODO'`. -/
def todoChars : List Char := ['T', 'O', 'D', 'O']

/-- The literal `'done'` (lower-case). -/
def doneChars : List Char := ['d', 'o', 'n', 'e']

/-- JS `toLowerCase` on the ASCII names involved. -/
def lowerStr (s : List Char) : List Char := s.map Char.toLower

/-- The fallback `columns[0]?.name || 'TODO'` : the first configured column's
name, except that an empty column list — or a first column whose name is the
empty string (a falsy value under `||`) — yields the literal `'TODO'`. -/
def fallbackName (cols : List ColumnConfig) : List Char :=
  match cols with
  | [] => todoChars
  | c :: _ => if c.name = [] then todoChars else c.name

/-- The symbol-to-column lookup of `parseTasks` :
`matchingCol = columns.find(c => c.symbol === symbol)`;
`column = matchingCol ? matchingCol.name : (columns[0]?.name || 'TODO')`;
then, only when nothing matched and the symbol is `x`/`X`, a case-insensitive
search for a column named `Done`. -/
def symbolToColumn (cols : List ColumnConfig) (sym : List Char) : List Char :=
  match cols.find? (fun c => c.symbol == sym) with
  | some c => c.name
  | none =>
    let fallback := fallbackName cols
    if sym = ['x'] ∨ sym = ['X'] then
      match cols.find? (fun c => lowerStr c.name == doneChars) with
      | some c => c.name
      | none => fallback
    else fallback

/-- Embeds `mapStatus` : upper-case the argument; `'X' → done`, `'/' → in_progress`,
`'-' → cancelled`; `case ' '` falls through to `default`, which returns
`in_progress` when the (non-uppercased) argument equals the clock column's
configured symbol, else `todo`. -/
def mapStatus (s : Settings) (x : List Char) : TaskStatus :=
  let u := x.map Char.toUpper
  if u = ['X'] then TaskStatus.done
  else if u = ['/'] then TaskStatus.in_progress
  else if u = ['-'] then TaskStatus.cancelled
  else
    match s.columns.find? (fun c => c.name == s.clockColumn) with
    | some c => if x = c.symbol then TaskStatus.in_progress else TaskStatus.todo
    | none => TaskStatus.todo

/-- The per-record map of `parseTasks`.  `gStatus` is the ambient JS global
`status` (`window.status`, normally the empty string): the source writes
`status: this.mapStatus(status)` with no local `status` in scope, so the
status enum is computed from the global, not from the record's symbol. -/
def parseTask (s : Settings) (gStatus : List Char) (r : RawRecord) : Task :=
  let column := symbolToColumn s.columns r.symbol
  { description := r.description
    column := column
    status := mapStatus s gStatus
    sourcePath := r.path
    lineNumber := r.lineNumber
    isClockedIn := r.isClockedIn || column == s.clockColumn }

/-- The completed-task filter of `parseTasks` : drop the task iff
`showCompletedTasks` is off and the configured symbol of the task's assigned
column is `'x'` or `'X'` (`colConfig?.symbol === 'x' || ... === 'X'`). -/
def keepTask (s : Settings) (t : Task) : Bool :=
  let isDone :=
    match s.columns.find? (fun c => c.name == t.column) with
    | some c => c.symbol = ['x'] || c.symbol = ['X']
    | none => false
  !(!s.showCompletedTasks && isDone)

/-- Embeds `parseTasks` : map then filter. -/
def parseTasks (s : Settings) (gStatus : List Char) (rs : List RawRecord) :
    List Task :=
  (rs.map (parseTask s gStatus)).filter (keepTask s)

/-- Embeds `checkIfTaskIsClockedIn` on the task's live document : `false` when the
line-number hint is out of bounds, else scan the annotation run below it,
returning `true` at the first line containing an open token. -/
def checkIfTaskIsClockedIn (lines : List (List Char)) (t : Task) : Bool :=
  if t.lineNumber < 0 ∨ (lines.length : Int) ≤ t.lineNumber then false
  else ((lines.drop (t.lineNumber.toNat + 1)).takeWhile isAnnotLine).any hasOpenClock

/-- The second pass of `loadTasks` : a task found clocked-in is forced into the
clock column with `isClockedIn = true`. -/
def applyClockPass (s : Settings) (lines : List (List Char)) (t : Task) : Task :=
  if checkIfTaskIsClockedIn lines t then
    { t with isClockedIn := true, column := s.clockColumn }
  else t

/-- Ingestion of a single record together with its live source document :
`parseTasks` (map + filter) followed by the clocked-in second pass. -/
def ingestOne (s : Settings) (gStatus : List Char) (lines : List (List Char))
    (r : RawRecord) : Option Task :=
  let t := parseTask s gStatus r
  if keepTask s t then some (applyClockPass s lines t) else none

/-! ## Document Mutation Queue (`queueFileAction`)

A queued action reads the whole document and either writes a new version
(`.ok`) or rejects (`.error`); the queue's `.catch` swallows the rejection so
the chain continues, which `runCaught` reproduces.  The promise chain
`currentAction.then(action).catch(...)` is embedded as the per-path list of
actions in submission order: `.then` runs an action only once the previous
tail has settled (fulfilled or rejected), so executing the chain is the left
fold `runChain`.  Cross-path interleaving is modelled by an explicit scheduler
(`stepQ` / `execSched`) that may pick any path at every step. -/

/-- A document-mutation action: succeeds with the new document or rejects. -/
def QAction (Doc : Type) := Doc → Except (List Char) Doc

/-- Run one action with the queue's `.catch` : a rejection is logged and the
document is left as the action found it. -/
def runCaught {Doc : Type} (a : QAction Doc) (d : Doc) : Doc :=
  match a d with
  | .ok d' => d'
  | .error _ => d

/-- Execute a chain of actions in submission order, each starting from the
state the previous one (successful or not) left behind. -/
def runChain {Doc : Type} (l : List (QAction Doc)) (d : Doc) : Doc :=
  l.foldl (fun s a => runCaught a s) d

/-- Embeds `queueFileAction(path, action)` on the chain map: append `a` to the chain
for `p` (`modificationQueue.get(path) || Promise.resolve()` then
`.then(action).catch(...)`, then `set(path, nextAction)`). -/
def queueFileAction {Doc : Type} (q : List Char → List (QAction Doc))
    (p : List Char) (a : QAction Doc) : List Char → List (QAction Doc) :=
  fun p' => if p' = p then q p' ++ [a] else q p'

/-- Scheduler state: the pending chains and the live documents, per path. -/
structure QState (Doc : Type) where
  chains : List Char → List (QAction Doc)
  docs : List Char → Doc

/-- One scheduler step: run the next pending action of path `p`, if any. -/
def stepQ {Doc : Type} (s : QState Doc) (p : List Char) : QState Doc :=
  match s.chains p with
  | [] => s
  | a :: rest =>
    { chains := fun p' => if p' = p then rest else s.chains p'
      docs := fun p' => if p' = p then runCaught a (s.docs p') else s.docs p' }

/-- Run an arbitrary interleaving: at each step the schedule names the path
whose next pending action runs. -/
def execSched {Doc : Type} (sched : List (List Char)) (s : QState Doc) :
    QState Doc :=
  sched.foldl stepQ s

/-! ## Transition Controller (`handleTaskMove`)

`handleTaskMove` awaits `clockOut` / `clockIn` (each enqueueing exactly one
interval action via `manageClockProperty` → `queueFileAction`) before
`updateTaskStatus` enqueues the symbol rewrite, so the per-path enqueue order
is the list order below. -/

/-- The kind of document mutation an enqueued action performs. -/
inductive FileActKind where
  | intervalOpen
  | intervalClose
  | statusRewrite (target : List Char)
deriving DecidableEq, Repr

/-- Embeds `handleTaskMove(task, sourceColumn, targetColumn)` : the sequence of
`(path, action)` pairs enqueued on the mutation queue, in enqueue order, and
the task as mutated in memory (clock-out on leaving the clock column, clock-in
on entering it, then `task.column = targetColumn`, then the status rewrite). -/
def handleTaskMove (s : Settings) (t : Task) (src tgt : List Char) :
    List (List Char × FileActKind) × Task :=
  let leaving := src = s.clockColumn ∧ tgt ≠ s.clockColumn ∧ s.autoClockInOut
  let entering := tgt = s.clockColumn ∧ src ≠ s.clockColumn ∧ s.autoClockInOut
  let closeActs := if leaving then [(t.sourcePath, FileActKind.intervalClose)] else []
  let t1 := if leaving then { t with isClockedIn := false } else t
  let openActs := if entering then [(t.sourcePath, FileActKind.intervalOpen)] else []
  let t2 := if entering then { t1 with isClockedIn := true } else t1
  (closeActs ++ openActs ++ [(t.sourcePath, FileActKind.statusRewrite tgt)],
    { t2 with column := tgt })

/-! ## Queue lemmas -/

theorem stepQ_runChain {Doc : Type} (s : QState Doc) (q p : List Char) :
    runChain ((stepQ s q).chains p) ((stepQ s q).docs p) =
      runChain (s.chains p) (s.docs p) := by
  unfold stepQ
  cases h : s.chains q with
  | nil => rfl
  | cons a rest =>
    by_cases hp : p = q
    · subst hp
      simp only [if_pos rfl]
      rw [h]
      rfl
    · simp only [if_neg hp]

theorem execSched_runChain {Doc : Type} (sched : List (List Char))
    (s : QState Doc) (p : List Char) :
    runChain ((execSched sched s).chains p) ((execSched sched s).docs p) =
      runChain (s.chains p) (s.docs p) := by
  induction sched generalizing s with
  | nil => rfl
  | cons q sched ih =>
    have hstep : execSched (q :: sched) s = execSched sched (stepQ s q) := rfl
    rw [hstep, ih (stepQ s q), stepQ_runChain]

/-- Claim C2: the Document Mutation Queue serializes same-path actions in
submission order and isolates failures.  (1) Enqueuing appends to the path's
chain and leaves every other path's chain untouched — so same-path actions
execute in submission order (the chain is folded left to right, each action
starting only from the state the previous one finished in, whether the
next action was enqueued before or after the previous one started running),
while different paths are chained independently.  (2) A rejected action is
caught and does not prevent the rest of the chain from running.  (3) Under any
cross-path interleaving whatsoever, once a path's chain is drained its
document equals the submission-order fold of its own chain. -/
theorem claim_c2 {Doc : Type} :
    (∀ (q : List Char → List (QAction Doc)) (p : List Char) (a : QAction Doc),
      queueFileAction q p a p = q p ++ [a] ∧
      ∀ p', p' ≠ p → queueFileAction q p a p' = q p') ∧
    (∀ (a : QAction Doc) (l : List (QAction Doc)) (d : Doc) (e : List Char),
      a d = Except.error e → runChain (a :: l) d = runChain l d) ∧
    (∀ (sched : List (List Char)) (s : QState Doc) (p : List Char),
      (execSched sched s).chains p = [] →
      (execSched sched s).docs p = runChain (s.chains p) (s.docs p)) := by
  refine ⟨fun q p a => ⟨?_, fun p' hp' => ?_⟩, fun a l d e he => ?_, fun sched s p hp => ?_⟩
  · simp [queueFileAction]
  · simp [queueFileAction, hp']
  · show runChain l (runCaught a d) = runChain l d
    rw [runCaught, he]
  · have h := execSched_runChain sched s p
    rw [hp] at h
    exact h

/-- Witness for C2 at concrete inputs: a chain `[error, n+1]` on `0` still
applies the second action (yielding `1`), and a drained two-action chain run
by an explicit scheduler ends at the submission-order fold (`0 + 2`, then an
error leaving `2`). -/
theorem claim_c2_witness :
    runChain [(fun _ => Except.error ['e'] : QAction Nat),
        (fun n => Except.ok (n + 1))] 0 = 1 ∧
    (execSched [['a'], ['a']]
        ⟨fun _ => [(fun n => Except.ok (n + 2)), (fun _ => Except.error ['x'])],
         fun _ => (0 : Nat)⟩).docs ['a'] = 2 := by
  constructor
  · have h := (@claim_c2 Nat).2.1 (fun _ => Except.error ['e'])
      [(fun n => Except.ok (n + 1))] 0 ['e'] rfl
    rw [h]
    rfl
  · have h := (@claim_c2 Nat).2.2 [['a'], ['a']]
      ⟨fun _ => [(fun n => Except.ok (n + 2)), (fun _ => Except.error ['x'])],
       fun _ => (0 : Nat)⟩ ['a'] rfl
    rw [h]
    rfl

/-- Claim C4: on a column change whose source or target is the clock column
(auto-interval enabled), exactly one interval action is enqueued on the task's
per-path chain strictly before the status-symbol rewrite for the same
transition (close when leaving the clock column, open when entering it), and
after the transition the task's column is the target column. -/
theorem claim_c4 (s : Settings) (t : Task) (src tgt : List Char)
    (hauto : s.autoClockInOut = true) (hne : src ≠ tgt)
    (hclock : src = s.clockColumn ∨ tgt = s.clockColumn) :
    ∃ k, (handleTaskMove s t src tgt).1 =
        [(t.sourcePath, k), (t.sourcePath, FileActKind.statusRewrite tgt)] ∧
      (src = s.clockColumn → k = FileActKind.intervalClose) ∧
      (tgt = s.clockColumn → k = FileActKind.intervalOpen) ∧
      (handleTaskMove s t src tgt).2.column = tgt := by
  rcases hclock with h | h
  · have htgt : tgt ≠ s.clockColumn := fun ht => hne (h.trans ht.symm)
    refine ⟨FileActKind.intervalClose, ?_, fun _ => rfl,
      fun ht => absurd ht htgt, ?_⟩
    · simp [handleTaskMove, h, htgt, hauto]
    · simp [handleTaskMove]
  · have hsrc : src ≠ s.clockColumn := fun hs => hne (hs.trans h.symm)
    refine ⟨FileActKind.intervalOpen, ?_, fun hs => absurd hs hsrc,
      fun _ => rfl, ?_⟩
    · simp [handleTaskMove, h, hsrc, hauto]
    · simp [handleTaskMove]

/-- Witness for C4: moving a task from `Working` (the clock column) to `Done`
enqueues the interval close and then the status rewrite, on the task's path. -/
theorem claim_c4_witness :
    (handleTaskMove
        ⟨true, "Working".toList, false, []⟩
        ⟨"T".toList, "Working".toList, TaskStatus.todo, "p.md".toList, 0, true⟩
        "Working".toList "Done".toList).1 =
      [("p.md".toList, FileActKind.intervalClose),
       ("p.md".toList, FileActKind.statusRewrite "Done".toList)] := by
  obtain ⟨k, hacts, hclose, -, -⟩ := claim_c4
    ⟨true, "Working".toList, false, []⟩
    ⟨"T".toList, "Working".toList, TaskStatus.todo, "p.md".toList, 0, true⟩
    "Working".toList "Done".toList rfl (by decide) (Or.inl rfl)
  rw [hacts, hclose rfl]

/-! ## First-match lemma for `Array.find`-style lookups -/

theorem find?_eq_some_of_first {α : Type} (p : α → Bool) :
    ∀ (l : List α) (i : Nat) (hi : i < l.length),
      p (l.get ⟨i, hi⟩) = true →
      (∀ (j : Nat) (hj : j < l.length), j < i → p (l.get ⟨j, hj⟩) = false) →
      l.find? p = some (l.get ⟨i, hi⟩)
  | [], i, hi, _, _ => absurd hi (Nat.not_lt_zero i)
  | a :: l, 0, _, hp, _ => by
    simp only [List.get] at hp
    simp [List.find?, hp]
  | a :: l, i + 1, hi, hp, hmin => by
    have ha : p a = false := hmin 0 (Nat.succ_pos _) (Nat.succ_pos _)
    have hrec := find?_eq_some_of_first p l i (Nat.lt_of_succ_lt_succ hi) hp
      (fun j hj hji =>
        hmin (j + 1) (Nat.succ_lt_succ hj) (Nat.succ_lt_succ hji))
    simp [List.find?, ha, hrec]

/-- Claim C6 counterexample: with a single configured column whose name is the
empty string and an unmapped symbol `q`, the lookup returns the literal
`'TODO'`, not the first configured column's (empty) name — refuting "if no
column's symbol matches, it returns the first configured column" as stated. -/
theorem claim_c6_cex :
    ([ColumnConfig.mk [] ['o']].find? (fun c => c.symbol == ['q'])) = none ∧
    ([ColumnConfig.mk [] ['o']].head?.map ColumnConfig.name) = some [] ∧
    symbolToColumn [ColumnConfig.mk [] ['o']] ['q'] = todoChars ∧
    todoChars ≠ ([] : List Char) := by
  refine ⟨rfl, rfl, rfl, ?_⟩
  decide

/-- Claim C6 (amended): the lookup returns the first configured column whose
symbol exactly equals `s`; if none matches, for `s = 'x'/'X'` it first returns
the first column whose lower-cased name is `done` when one exists; otherwise it
returns the first configured column's name — except that with an empty column
list, or a first column whose name is the empty string, the fallback is the
literal `'TODO'` (`fallbackName`).  Total: no error for unmapped symbols. -/
theorem claim_c6 (cols : List ColumnConfig) (sym : List Char) :
    (∀ (i : Nat) (hi : i < cols.length),
      (cols.get ⟨i, hi⟩).symbol = sym →
      (∀ (j : Nat) (hj : j < cols.length), j < i →
        (cols.get ⟨j, hj⟩).symbol ≠ sym) →
      symbolToColumn cols sym = (cols.get ⟨i, hi⟩).name) ∧
    ((∀ c ∈ cols, c.symbol ≠ sym) →
      ((sym = ['x'] ∨ sym = ['X']) →
        ∀ (i : Nat) (hi : i < cols.length),
          lowerStr (cols.get ⟨i, hi⟩).name = doneChars →
          (∀ (j : Nat) (hj : j < cols.length), j < i →
            lowerStr (cols.get ⟨j, hj⟩).name ≠ doneChars) →
          symbolToColumn cols sym = (cols.get ⟨i, hi⟩).name) ∧
      ((¬(sym = ['x'] ∨ sym = ['X']) ∨ ∀ c ∈ cols, lowerStr c.name ≠ doneChars) →
        symbolToColumn cols sym = fallbackName cols)) := by
  constructor
  · intro i hi hp hmin
    have hfind : cols.find? (fun c => c.symbol == sym) = some (cols.get ⟨i, hi⟩) := by
      refine find?_eq_some_of_first _ cols i hi ?_ ?_
      · exact beq_iff_eq.mpr hp
      · intro j hj hji
        exact beq_eq_false_iff_ne.mpr (hmin j hj hji)
    rw [symbolToColumn, hfind]
  · intro hnone
    have hfind : cols.find? (fun c => c.symbol == sym) = none :=
      List.find?_eq_none.mpr fun c hc => by
        simpa using hnone c hc
    constructor
    · intro hx i hi hp hmin
      have hdone : cols.find? (fun c => lowerStr c.name == doneChars) =
          some (cols.get ⟨i, hi⟩) := by
        refine find?_eq_some_of_first _ cols i hi ?_ ?_
        · exact beq_iff_eq.mpr hp
        · intro j hj hji
          exact beq_eq_false_iff_ne.mpr (hmin j hj hji)
      rw [symbolToColumn, hfind]
      simp only [if_pos hx, hdone]
    · rintro (hx | hd)
      · rw [symbolToColumn, hfind]
        simp only [if_neg hx]
      · have hdone : cols.find? (fun c => lowerStr c.name == doneChars) = none :=
          List.find?_eq_none.mpr fun c hc => by
            simpa using hd c hc
        rw [symbolToColumn, hfind]
        by_cases hx : sym = ['x'] ∨ sym = ['X']
        · simp only [if_pos hx, hdone]
        · simp only [if_neg hx]

/-- Witness for C6 at concrete inputs: symbol `x` with no symbol-matching
column resolves to the column named `Done` (first done-named match). -/
theorem claim_c6_witness :
    symbolToColumn
      [ColumnConfig.mk "TODO".toList [' '], ColumnConfig.mk "Done".toList ['✓']]
      ['x'] = "Done".toList := by
  have h := (claim_c6
      [ColumnConfig.mk "TODO".toList [' '], ColumnConfig.mk "Done".toList ['✓']]
      ['x']).2 (by decide) |>.1 (Or.inl rfl) 1 (by decide) (by decide)
      (fun j hj hj1 => by
        have hj0 : j = 0 := Nat.lt_one_iff.mp hj1
        subst hj0
        show lowerStr "TODO".toList ≠ doneChars
        decide)
  exact h

/-! ## Ingestion claims -/

/-- Claim C7 counterexample: with columns `TODO(' ')`, `Working('/')`,
`Done('x')`, `showCompletedTasks = false` and a record with symbol `x`, the
task is dropped by ingestion although its derived status enum is `todo`
(not `done`) — refuting "every non-done task is always included": the filter
keys on the assigned column's configured symbol, not on the status enum. -/
theorem claim_c7_cex :
    ingestOne
        ⟨true, "Working".toList, false,
          [ColumnConfig.mk "TODO".toList [' '],
           ColumnConfig.mk "Working".toList ['/'],
           ColumnConfig.mk "Done".toList ['x']]⟩
        [] ["- [x] T".toList]
        ⟨['x'], ['T'], "p.md".toList, 0, false⟩ = none ∧
    (parseTask
        ⟨true, "Working".toList, false,
          [ColumnConfig.mk "TODO".toList [' '],
           ColumnConfig.mk "Working".toList ['/'],
           ColumnConfig.mk "Done".toList ['x']]⟩
        [] ⟨['x'], ['T'], "p.md".toList, 0, false⟩).status = TaskStatus.todo ∧
    TaskStatus.todo ≠ TaskStatus.done := by
  refine ⟨rfl, rfl, ?_⟩
  decide

theorem keepTask_iff (s : Settings) (t : Task) :
    keepTask s t = true ↔
      (s.showCompletedTasks = true ∨
        ∀ c, s.columns.find? (fun c' => c'.name == t.column) = some c →
          c.symbol ≠ ['x'] ∧ c.symbol ≠ ['X']) := by
  rw [keepTask]
  cases hf : s.columns.find? (fun c' => c'.name == t.column) with
  | none => simp [hf]
  | some c =>
    cases hs : s.showCompletedTasks with
    | true => simp
    | false =>
      simp only [Bool.not_false, Bool.true_and, Bool.not_eq_true',
        Bool.or_eq_false_iff, decide_eq_false_iff_not, Bool.false_eq_true,
        false_or]
      constructor
      · rintro ⟨h1, h2⟩ c' hc'
        cases hc'
        exact ⟨h1, h2⟩
      · intro h
        exact h c rfl

/-- Claim C7 (amended): ingestion includes the task in the output if and only
if `showCompletedTasks` is enabled or the configured symbol of the column
assigned to the task is neither `'x'` nor `'X'` (the filter keys on the
assigned column's configured symbol, not on the derived status enum). -/
theorem claim_c7 (s : Settings) (gStatus : List Char)
    (lines : List (List Char)) (r : RawRecord) :
    (ingestOne s gStatus lines r).isSome = true ↔
      (s.showCompletedTasks = true ∨
        ∀ c, s.columns.find? (fun c' => c'.name == (parseTask s gStatus r).column) =
            some c →
          c.symbol ≠ ['x'] ∧ c.symbol ≠ ['X']) := by
  rw [ingestOne]
  by_cases h : keepTask s (parseTask s gStatus r) = true
  · rw [if_pos h]
    simpa using (keepTask_iff s (parseTask s gStatus r)).mp h
  · rw [if_neg h]
    simp only [Option.isSome_none, Bool.false_eq_true, false_iff]
    intro hr
    exact h ((keepTask_iff s (parseTask s gStatus r)).mpr hr)

/-- Witness for C7: a `todo`-symbol task is kept when the flag is off. -/
theorem claim_c7_witness :
    (ingestOne
        ⟨true, "Working".toList, false,
          [ColumnConfig.mk "TODO".toList [' '],
           ColumnConfig.mk "Done".toList ['x']]⟩
        [] ["- [ ] T".toList]
        ⟨[' '], ['T'], "p.md".toList, 0, false⟩).isSome = true := by
  refine (claim_c7
      ⟨true, "Working".toList, false,
        [ColumnConfig.mk "TODO".toList [' '],
         ColumnConfig.mk "Done".toList ['x']]⟩
      [] ["- [ ] T".toList]
      ⟨[' '], ['T'], "p.md".toList, 0, false⟩).mpr (Or.inr ?_)
  intro c hc
  have hc2 : some (ColumnConfig.mk "TODO".toList [' ']) = some c := hc
  have hc' : c = ColumnConfig.mk "TODO".toList [' '] := (Option.some.inj hc2).symm
  subst hc'
  exact ⟨by decide, by decide⟩

/-- Claim C8: the spec says the ingested task's status enum is derived from the
record's status symbol (`x/X → done`, in-progress symbol → in_progress,
`- → cancelled`, else todo) — and `mapStatus` does implement exactly that
mapping — but `parseTasks` passes the ambient JS global `status`
(`window.status`, normally the empty string) instead of the local `symbol`,
so a record with symbol `x` is ingested with status `todo`, not `done`:
the code contradicts the evident intent.  Evaluations at the failing input
(global status `''`, record symbol `x`, default-style columns). -/
theorem claim_c8_bug :
    (parseTask
        ⟨true, "Working".toList, false,
          [ColumnConfig.mk "TODO".toList [' '],
           ColumnConfig.mk "Working".toList ['/'],
           ColumnConfig.mk "Done".toList ['x']]⟩
        [] ⟨['x'], ['T'], "p.md".toList, 0, false⟩).status = TaskStatus.todo ∧
    mapStatus
        ⟨true, "Working".toList, false,
          [ColumnConfig.mk "TODO".toList [' '],
           ColumnConfig.mk "Working".toList ['/'],
           ColumnConfig.mk "Done".toList ['x']]⟩
        ['x'] = TaskStatus.done ∧
    TaskStatus.todo ≠ TaskStatus.done := by
  refine ⟨rfl, rfl, ?_⟩
  decide

/-- Claim C5 counterexample: a record whose symbol is the clock column's
configured symbol (`/` for `Working`), with no annotation line below its task
line, is ingested with `isClockedIn = true` although no open interval marker
exists below its line — refuting "`isClockedIn` holds exactly when an open
interval marker exists below the task's line" (`parseTasks` initializes
`isClockedIn` to `task.isClockedIn || column === clockColumn`). -/
theorem claim_c5_cex :
    ((ingestOne
        ⟨true, "Working".toList, false,
          [ColumnConfig.mk "TODO".toList [' '],
           ColumnConfig.mk "Working".toList ['/'],
           ColumnConfig.mk "Done".toList ['x']]⟩
        [] ["- [/] T".toList]
        ⟨['/'], ['T'], "p.md".toList, 0, false⟩).map Task.isClockedIn) =
      some true ∧
    List.any (List.takeWhile isAnnotLine (List.drop 1 ["- [/] T".toList]))
      hasOpenClock = false := by
  exact ⟨rfl, rfl⟩

/-- Claim C5 (amended): if an open interval marker occurs in the annotation run
immediately below the task's (in-bounds) line-number hint in its live source
document, then the ingested task is forced to `column = clockColumn` and
`isClockedIn = true`, regardless of the symbol-derived column.  (The converse
direction of the original claim is refuted by `claim_c5_cex` : `isClockedIn`
is also set when the symbol-derived column equals the clock column, with no
marker present.) -/
theorem claim_c5 (s : Settings) (gStatus : List Char)
    (lines : List (List Char)) (r : RawRecord) (t : Task)
    (hin : ingestOne s gStatus lines r = some t)
    (h0 : 0 ≤ r.lineNumber) (hlt : r.lineNumber < (lines.length : Int))
    (hopen : ((lines.drop (r.lineNumber.toNat + 1)).takeWhile isAnnotLine).any
        hasOpenClock = true) :
    t.column = s.clockColumn ∧ t.isClockedIn = true := by
  have hchk : checkIfTaskIsClockedIn lines (parseTask s gStatus r) = true := by
    rw [checkIfTaskIsClockedIn]
    have hln : (parseTask s gStatus r).lineNumber = r.lineNumber := rfl
    rw [hln, if_neg (by omega)]
    exact hopen
  rw [ingestOne] at hin
  by_cases hk : keepTask s (parseTask s gStatus r) = true
  · rw [if_pos hk] at hin
    have ht : t = applyClockPass s lines (parseTask s gStatus r) :=
      (Option.some.inj hin).symm
    rw [ht, applyClockPass, if_pos hchk]
    exact ⟨rfl, rfl⟩
  · rw [if_neg hk] at hin
    exact absurd hin (by simp)

/-- Witness for C5: an open token below the task line forces the clock column
even though the record's symbol maps to `TODO`. -/
theorem claim_c5_witness :
    ingestOne
        ⟨true, "Working".toList, false,
          [ColumnConfig.mk "TODO".toList [' '],
           ColumnConfig.mk "Working".toList ['/'],
           ColumnConfig.mk "Done".toList ['x']]⟩
        [] ["- [ ] T".toList, "      [clock::2024]".toList]
        ⟨[' '], ['T'], "p.md".toList, 0, false⟩ =
      some ⟨['T'], "Working".toList, TaskStatus.todo, "p.md".toList, 0, true⟩ ∧
    ((⟨['T'], "Working".toList, TaskStatus.todo, "p.md".toList, 0, true⟩ :
        Task).column =
      (⟨true, "Working".toList, false,
        [ColumnConfig.mk "TODO".toList [' '],
         ColumnConfig.mk "Working".toList ['/'],
         ColumnConfig.mk "Done".toList ['x']]⟩ : Settings).clockColumn ∧
      (⟨['T'], "Working".toList, TaskStatus.todo, "p.md".toList, 0, true⟩ :
        Task).isClockedIn = true) :=
  ⟨by decide,
    claim_c5
      ⟨true, "Working".toList, false,
        [ColumnConfig.mk "TODO".toList [' '],
         ColumnConfig.mk "Working".toList ['/'],
         ColumnConfig.mk "Done".toList ['x']]⟩
      [] ["- [ ] T".toList, "      [clock::2024]".toList]
      ⟨[' '], ['T'], "p.md".toList, 0, false⟩
      ⟨['T'], "Working".toList, TaskStatus.todo, "p.md".toList, 0, true⟩
      (by decide) (by decide) (by decide) (by decide)⟩

/-! ## Interval close as a no-op (C9) -/

theorem lastOpenAux_eq_none :
    ∀ (xs : List (List Char)) (j : Nat),
      (∀ l ∈ xs.takeWhile isAnnotLine, hasOpenClock l = false) →
      lastOpenAux xs j = none
  | [], _, _ => rfl
  | l :: rest, j, h => by
    rw [lastOpenAux]
    cases ha : isAnnotLine l with
    | false => rw [if_neg (by simp [ha])]
    | true =>
      rw [if_pos rfl]
      have hmem : l ∈ (l :: rest).takeWhile isAnnotLine := by
        rw [List.takeWhile_cons, if_pos ha]
        exact List.mem_cons_self l _
      have hrest : ∀ l' ∈ rest.takeWhile isAnnotLine, hasOpenClock l' = false := by
        intro l' hl'
        refine h l' ?_
        rw [List.takeWhile_cons, if_pos ha]
        exact List.mem_cons_of_mem l hl'
      rw [lastOpenAux_eq_none rest (j + 1) hrest, if_neg (by simp [h l hmem])]

/-- Claim C9: when the annotation run directly below the resolved task line
contains no token of the open-interval grammar, the interval close is a no-op:
every line of the document is left unchanged (and the embedded function is
total, so no error is raised). -/
theorem claim_c9 (lines : List (List Char)) (i : Nat) (ts : List Char)
    (h : ∀ l ∈ annotRunBelow lines i, hasOpenClock l = false) :
    clockCloseAt lines i ts = lines := by
  rw [clockCloseAt, lastOpenAux_eq_none (lines.drop (i + 1)) (i + 1) h]

/-- Witness for C9: a document whose task line has only a closed-interval
annotation line below it is unchanged by a close. -/
theorem claim_c9_witness :
    clockCloseAt
        ["- [ ] T".toList, "      [clock::a--b]".toList, "next".toList]
        0 "T1".toList =
      ["- [ ] T".toList, "      [clock::a--b]".toList, "next".toList] :=
  claim_c9 ["- [ ] T".toList, "      [clock::a--b]".toList, "next".toList]
    0 "T1".toList (by decide)

/-! ## Task Locator (C3, C10) -/

theorem scanLines_spec (desc : List Char) :
    ∀ (l : List (List Char)) (j : Nat),
      (scanLines l desc j = -1 ∧
        ∀ (k : Nat) (hk : k < l.length),
          lineMatches (l.get ⟨k, hk⟩) desc = false) ∨
      (∃ (k : Nat) (hk : k < l.length),
        scanLines l desc j = ((j + k : Nat) : Int) ∧
        lineMatches (l.get ⟨k, hk⟩) desc = true ∧
        ∀ (m : Nat) (hm : m < l.length), m < k →
          lineMatches (l.get ⟨m, hm⟩) desc = false)
  | [], j => Or.inl ⟨rfl, fun k hk => absurd hk (Nat.not_lt_zero k)⟩
  | l :: rest, j => by
    cases hl : lineMatches l desc with
    | true =>
      right
      refine ⟨0, Nat.succ_pos _, ?_, hl,
        fun m hm hm0 => absurd hm0 (Nat.not_lt_zero m)⟩
      rw [scanLines, if_pos hl]
      simp
    | false =>
      have hscan : scanLines (l :: rest) desc j = scanLines rest desc (j + 1) := by
        rw [scanLines, if_neg (by simp [hl])]
      rcases scanLines_spec desc rest (j + 1) with ⟨h1, h2⟩ | ⟨k, hk, h1, h2, h3⟩
      · left
        refine ⟨hscan.trans h1, ?_⟩
        intro k hk
        cases k with
        | zero => exact hl
        | succ k => exact h2 k (Nat.lt_of_succ_lt_succ hk)
      · right
        refine ⟨k + 1, Nat.succ_lt_succ hk, ?_, h2, ?_⟩
        · rw [hscan, h1]
          congr 1
          omega
        · intro m hm hmk
          cases m with
          | zero => exact hl
          | succ m =>
            exact h3 m (Nat.lt_of_succ_lt_succ hm) (Nat.lt_of_succ_lt_succ hmk)

/-- Claim C3: the locator returns `lastKnownIndex` unchanged when it is in
bounds and that line still contains both the task marker `'- ['` and the
description substring; otherwise it returns the index of the *first* line
containing both (duplicates are not disambiguated — every earlier line fails
to match); otherwise `-1`. -/
theorem claim_c3 (lines : List (List Char)) (desc : List Char) (k : Int) :
    ((0 ≤ k ∧ k < (lines.length : Int) ∧
        lineMatches (lines.getD k.toNat []) desc = true) →
      findTaskInLines lines desc k = k) ∧
    (¬(0 ≤ k ∧ k < (lines.length : Int) ∧
        lineMatches (lines.getD k.toNat []) desc = true) →
      (∃ (i : Nat) (hi : i < lines.length),
        findTaskInLines lines desc k = (i : Int) ∧
        lineMatches (lines.get ⟨i, hi⟩) desc = true ∧
        ∀ (m : Nat) (hm : m < lines.length), m < i →
          lineMatches (lines.get ⟨m, hm⟩) desc = false) ∨
      (findTaskInLines lines desc k = -1 ∧
        ∀ (m : Nat) (hm : m < lines.length),
          lineMatches (lines.get ⟨m, hm⟩) desc = false)) := by
  constructor
  · intro h
    rw [findTaskInLines, if_pos h]
  · intro h
    rw [findTaskInLines, if_neg h]
    rcases scanLines_spec desc lines 0 with ⟨h1, h2⟩ | ⟨i, hi, h1, h2, h3⟩
    · exact Or.inr ⟨h1, h2⟩
    · refine Or.inl ⟨i, hi, ?_, h2, h3⟩
      rw [h1]
      simp

/-- Witness for C3: the fast path keeps a still-valid hint even when an
earlier duplicate line would match the scan. -/
theorem claim_c3_witness :
    findTaskInLines
        ["- [ ] A".toList, "x".toList, "- [ ] A".toList] "A".toList 2 = 2 :=
  (claim_c3 ["- [ ] A".toList, "x".toList, "- [ ] A".toList] "A".toList 2).1
    (by refine ⟨by decide, by decide, ?_⟩; decide)

/-- Claim C10: the locator is total and well-formed on every input, including
negative and out-of-bounds hints: it returns `-1` or an in-bounds index whose
line contains both the description substring and the task marker `'- ['`. -/
theorem claim_c10 (lines : List (List Char)) (desc : List Char) (k : Int) :
    findTaskInLines lines desc k = -1 ∨
    ∃ (i : Nat) (hi : i < lines.length),
      findTaskInLines lines desc k = (i : Int) ∧
      containsSub (lines.get ⟨i, hi⟩) desc = true ∧
      containsSub (lines.get ⟨i, hi⟩) markerChars = true := by
  rw [findTaskInLines]
  by_cases h : 0 ≤ k ∧ k < (lines.length : Int) ∧
      lineMatches (lines.getD k.toNat []) desc = true
  · rw [if_pos h]
    obtain ⟨h0, hlt, hm⟩ := h
    have hknat : ((k.toNat : Int)) = k := Int.toNat_of_nonneg h0
    have hi : k.toNat < lines.length := by omega
    rw [List.getD_eq_get lines [] hi] at hm
    rw [lineMatches, Bool.and_eq_true] at hm
    exact Or.inr ⟨k.toNat, hi, hknat.symm, hm.1, hm.2⟩
  · rw [if_neg h]
    rcases scanLines_spec desc lines 0 with ⟨h1, _⟩ | ⟨i, hi, h1, h2, _⟩
    · exact Or.inl h1
    · rw [lineMatches, Bool.and_eq_true] at h2
      refine Or.inr ⟨i, hi, ?_, h2.1, h2.2⟩
      rw [h1]
      simp

/-! ## String-level lemmas for the interval round-trip (C1) -/

theorem take_tag (r : List Char) : (tagChars ++ r).take 8 = tagChars :=
  List.take_left' rfl

theorem drop_tag (r : List Char) : (tagChars ++ r).drop 8 = r :=
  List.drop_left' rfl

theorem matchOpenAt_cons_ne (c : Char) (hc : c ≠ '[') (l : List Char) :
    matchOpenAt (c :: l) = none := by
  rw [matchOpenAt, if_neg]
  intro h
  have h8 : (c :: l).take 8 = c :: l.take 7 := rfl
  rw [h8] at h
  injection h with h1 h2
  exact hc h1

theorem takeWhile_append_all {α : Type} (p : α → Bool) :
    ∀ (l r : List α), (∀ c ∈ l, p c = true) →
      (l ++ r).takeWhile p = l ++ r.takeWhile p
  | [], r, _ => rfl
  | a :: l, r, h => by
    rw [List.cons_append, List.takeWhile_cons, if_pos (h a (List.mem_cons_self a l)),
      takeWhile_append_all p l r (fun c hc => h c (List.mem_cons_of_mem a hc)),
      List.cons_append]

theorem dropWhile_append_all {α : Type} (p : α → Bool) :
    ∀ (l r : List α), (∀ c ∈ l, p c = true) →
      (l ++ r).dropWhile p = r.dropWhile p
  | [], r, _ => rfl
  | a :: l, r, h => by
    rw [List.cons_append, List.dropWhile_cons, if_pos (h a (List.mem_cons_self a l))]
    exact dropWhile_append_all p l r (fun c hc => h c (List.mem_cons_of_mem a hc))

theorem noDD_tail (c : Char) (t : List Char) (h : noDD (c :: t) = true) :
    noDD t = true := by
  cases t with
  | nil => rfl
  | cons d t' =>
    rw [noDD, Bool.and_eq_true] at h
    exact h.2

theorem openBodySplit_closed :
    ∀ (t r : List Char), ']' ∉ t → noDD t = true →
      openBodySplit (t ++ ']' :: r) = (t, ']' :: r)
  | [], r, _, _ => by
    rw [List.nil_append, openBodySplit, if_pos rfl]
  | c :: t, r, h1, h2 => by
    have hc : c ≠ ']' := fun hc => h1 (hc ▸ List.mem_cons_self c t)
    have hdash : ¬(c = '-' ∧ (t ++ ']' :: r).head? = some '-') := by
      rintro ⟨hcd, hh⟩
      cases t with
      | nil =>
        rw [List.nil_append] at hh
        exact (by decide : (']' : Char) ≠ '-') (Option.some.inj hh)
      | cons d t' =>
        rw [List.cons_append] at hh
        have hd : d = '-' := Option.some.inj hh
        rw [noDD, hcd, hd] at h2
        simp at h2
    rw [List.cons_append, openBodySplit, if_neg hc, if_neg hdash,
      openBodySplit_closed t r (fun m => h1 (List.mem_cons_of_mem c m))
        (noDD_tail c t h2)]

theorem matchOpenAt_open (t r : List Char) (h0 : t ≠ []) (h1 : ']' ∉ t)
    (h2 : noDD t = true) :
    matchOpenAt (tagChars ++ (t ++ ']' :: r)) = some (t, r) := by
  rw [matchOpenAt, if_pos (take_tag _), drop_tag, openBodySplit_closed t r h1 h2]
  simp only [if_neg h0]

theorem isAnnotLine_open (t : List Char) (h0 : t ≠ []) (h1 : ']' ∉ t) :
    isAnnotLine (ind6 ++ (tagChars ++ (t ++ [']']))) = true := by
  rw [isAnnotLine, dropWs, dropWhile_append_all wsChar ind6 _ (by decide)]
  have htag : tagChars ++ (t ++ [']']) =
      '[' :: (['c', 'l', 'o', 'c', 'k', ':', ':'] ++ (t ++ [']'])) := rfl
  rw [htag, List.dropWhile_cons, if_neg (by decide), ← htag]
  have hmem : ∀ c ∈ t, (fun c => decide (c ≠ ']')) c = true := by
    intro c hc
    simp only [decide_eq_true_eq]
    intro he
    subst he
    exact h1 hc
  have hdw : (t ++ [']']).dropWhile (fun c => c ≠ ']') = [']'] := by
    rw [dropWhile_append_all _ t [']'] hmem]
    rfl
  have htw : (t ++ [']']).takeWhile (fun c => c ≠ ']') = t := by
    rw [takeWhile_append_all _ t [']'] hmem,
      show List.takeWhile (fun c => decide (c ≠ ']')) [']'] = [] from rfl,
      List.append_nil]
  rw [annotTokens, parseClockToken, if_pos (take_tag _), drop_tag, hdw, htw]
  simp only [if_neg h0]
  rfl

theorem hasOpenClock_ne_head (c : Char) (hc : c ≠ '[') (l : List Char) :
    hasOpenClock (c :: l) = hasOpenClock l := by
  rw [hasOpenClock, matchOpenAt_cons_ne c hc l]
  rfl

theorem hasOpenClock_append_skip :
    ∀ (pre l : List Char), (∀ c ∈ pre, c ≠ '[') →
      hasOpenClock (pre ++ l) = hasOpenClock l
  | [], l, _ => rfl
  | c :: pre, l, h => by
    rw [List.cons_append, hasOpenClock_ne_head c (h c (List.mem_cons_self c pre))]
    exact hasOpenClock_append_skip pre l (fun d hd => h d (List.mem_cons_of_mem c hd))

theorem hasOpenClock_open (t : List Char) (h0 : t ≠ []) (h1 : ']' ∉ t)
    (h2 : noDD t = true) :
    hasOpenClock (ind6 ++ (tagChars ++ (t ++ [']']))) = true := by
  rw [hasOpenClock_append_skip ind6 _ (by decide)]
  have htag : tagChars ++ (t ++ [']']) =
      '[' :: (['c', 'l', 'o', 'c', 'k', ':', ':'] ++ (t ++ [']'])) := rfl
  rw [htag, hasOpenClock, ← htag, matchOpenAt_open t [] h0 h1 h2]
  rfl

theorem set_append_length {α : Type} :
    ∀ (A : List α) (b : α) (rest : List α) (x : α),
      (A ++ b :: rest).set A.length x = A ++ x :: rest
  | [], _, _, _ => rfl
  | a :: A, b, rest, x => by
    rw [List.cons_append, List.length_cons, List.set_cons_succ,
      set_append_length A b rest x, List.cons_append]

theorem set_append_eq {α : Type} (A : List α) (b x : α) (rest : List α)
    (n : Nat) (h : A.length = n) :
    (A ++ b :: rest).set n x = A ++ x :: rest := by
  subst h
  exact set_append_length A b rest x

theorem openMatchesAux_nil (fuel i : Nat) : openMatchesAux fuel [] i = [] := by
  cases fuel <;> rfl

theorem openMatchesAux_skip (c : Char) (hc : c ≠ '[') (fuel : Nat)
    (l : List Char) (i : Nat) :
    openMatchesAux (fuel + 1) (c :: l) i = openMatchesAux fuel l (i + 1) := by
  rw [openMatchesAux, matchOpenAt_cons_ne c hc l]

theorem openMatchesAux_pre :
    ∀ (pre : List Char), (∀ c ∈ pre, c ≠ '[') →
      ∀ (k : Nat) (l : List Char) (i : Nat),
        openMatchesAux (pre.length + k) (pre ++ l) i =
          openMatchesAux k l (i + pre.length)
  | [], _, k, l, i => by
    rw [List.nil_append, List.length_nil, Nat.zero_add, Nat.add_zero]
  | c :: pre, h, k, l, i => by
    have hlen : (c :: pre).length + k = (pre.length + k) + 1 := by
      rw [List.length_cons]
      omega
    rw [hlen, List.cons_append,
      openMatchesAux_skip c (h c (List.mem_cons_self c pre)) _ _ i,
      openMatchesAux_pre pre (fun d hd => h d (List.mem_cons_of_mem c hd)) k l
        (i + 1)]
    congr 1
    rw [List.length_cons]
    omega

theorem openMatchesAux_hit (c : Char) (s b after : List Char) (k i : Nat)
    (hm : matchOpenAt (c :: s) = some (b, after)) :
    openMatchesAux (k + 1) (c :: s) i =
      (i, b) :: openMatchesAux k after (i + (b.length + 9)) := by
  rw [openMatchesAux, hm]

theorem openMatches_openLine (t : List Char) (h0 : t ≠ []) (h1 : ']' ∉ t)
    (h2 : noDD t = true) :
    openMatches (ind6 ++ (tagChars ++ (t ++ [']']))) = [(6, t)] := by
  rw [openMatches]
  have hlen : (ind6 ++ (tagChars ++ (t ++ [']']))).length + 1 =
      ind6.length + ((t.length + 9) + 1) := by
    simp [ind6, tagChars]
    omega
  rw [hlen, openMatchesAux_pre ind6 (by decide) _ _ 0]
  have htag : tagChars ++ (t ++ [']']) =
      '[' :: (['c', 'l', 'o', 'c', 'k', ':', ':'] ++ (t ++ [']'])) := rfl
  rw [htag]
  rw [openMatchesAux_hit '[' _ t [] _ _ (by rw [← htag]; exact matchOpenAt_open t [] h0 h1 h2)]
  rw [openMatchesAux_nil]
  rfl

/-- Claim C1: on a document whose task line at index `i` has no annotation
line below it, opening an interval with timestamp `t0` and then closing it
with timestamp `t1` produces exactly one interval token below the task line —
a single fresh annotation line, indented six spaces, whose textual form is the
closed shape `[clock::t0--t1]` with the original start timestamp preserved and
the end timestamp appended; every other line is unchanged.  `t0` is required
to be a well-formed timestamp body (nonempty, no `]`, no `--`), which every
`moment().format('YYYY-MM-DDTHH:mm:ss')` output is. -/
theorem claim_c1 (lines : List (List Char)) (i : Nat) (t0 t1 : List Char)
    (hlen : i < lines.length)
    (hno : annotRunBelow lines i = [])
    (h0 : t0 ≠ []) (h1 : ']' ∉ t0) (h2 : noDD t0 = true) :
    clockCloseAt (clockOpenAt lines i t0) i t1 =
      lines.take (i + 1) ++
        (ind6 ++ tagChars ++ t0 ++ ['-', '-'] ++ t1 ++ [']']) ::
          lines.drop (i + 1) := by
  have hassoc : ind6 ++ tagChars ++ t0 ++ [']'] =
      ind6 ++ (tagChars ++ (t0 ++ [']'])) := by
    simp [List.append_assoc]
  have hopen : clockOpenAt lines i t0 =
      lines.take (i + 1) ++ (ind6 ++ (tagChars ++ (t0 ++ [']']))) ::
        lines.drop (i + 1) := by
    rw [clockOpenAt, hno, List.length_nil, Nat.add_zero, hassoc]
  have htklen : (lines.take (i + 1)).length = i + 1 :=
    List.length_take_of_le (by omega)
  have hdrop : (clockOpenAt lines i t0).drop (i + 1) =
      (ind6 ++ (tagChars ++ (t0 ++ [']']))) :: lines.drop (i + 1) := by
    rw [hopen, List.drop_left' htklen]
  have htake : (clockOpenAt lines i t0).take (i + 1) = lines.take (i + 1) := by
    rw [hopen, List.take_left' htklen]
  have hgetd : (clockOpenAt lines i t0).getD (i + 1) [] =
      ind6 ++ (tagChars ++ (t0 ++ [']'])) := by
    rw [hopen, List.getD_eq_getD_get?, List.get?_append_right (by omega)]
    rw [htklen, Nat.sub_self]
    rfl
  have hrestnone :
      lastOpenAux (lines.drop (i + 1)) (i + 1 + 1) = none := by
    refine lastOpenAux_eq_none (lines.drop (i + 1)) (i + 1 + 1) ?_
    rw [annotRunBelow] at hno
    rw [hno]
    intro l hl
    exact absurd hl (List.not_mem_nil l)
  have hlast : lastOpenAux ((clockOpenAt lines i t0).drop (i + 1)) (i + 1) =
      some (i + 1) := by
    rw [hdrop, lastOpenAux, if_pos (isAnnotLine_open t0 h0 h1), hrestnone,
      hasOpenClock_open t0 h0 h1 h2]
    rfl
  have hrw : rewriteLastOpen ((clockOpenAt lines i t0).getD (i + 1) []) t1 =
      ind6 ++ tagChars ++ t0 ++ ['-', '-'] ++ t1 ++ [']'] := by
    rw [hgetd, rewriteLastOpen, openMatches_openLine t0 h0 h1 h2]
    have hgl : ([((6 : Nat), t0)]).getLast? = some (6, t0) := rfl
    rw [hgl]
    have htk6 : (ind6 ++ (tagChars ++ (t0 ++ [']']))).take 6 = ind6 :=
      List.take_left' rfl
    have hdp : (ind6 ++ (tagChars ++ (t0 ++ [']']))).drop (6 + (t0.length + 9)) =
        [] := by
      refine List.drop_eq_nil_of_le ?_
      simp [ind6, tagChars]
      omega
    show (ind6 ++ (tagChars ++ (t0 ++ [']']))).take 6 ++ tagChars ++ t0 ++
        ['-', '-'] ++ t1 ++ [']'] ++
        (ind6 ++ (tagChars ++ (t0 ++ [']']))).drop (6 + (t0.length + 9)) =
      ind6 ++ tagChars ++ t0 ++ ['-', '-'] ++ t1 ++ [']']
    rw [htk6, hdp, List.append_nil]
  have hset : ∀ (x : List Char),
      (clockOpenAt lines i t0).set (i + 1) x =
        lines.take (i + 1) ++ x :: lines.drop (i + 1) := by
    intro x
    rw [hopen]
    exact set_append_eq (lines.take (i + 1)) _ x _ (i + 1) htklen
  rw [clockCloseAt, hlast]
  show (clockOpenAt lines i t0).set (i + 1)
      (rewriteLastOpen ((clockOpenAt lines i t0).getD (i + 1) []) t1) = _
  rw [hrw, hset]

/-- Witness for C1 on a concrete document: open then close on the task at
index 0 yields exactly the single closed token line below it. -/
theorem claim_c1_witness :
    clockCloseAt (clockOpenAt ["- [ ] T".toList, "next".toList] 0 "A1".toList)
        0 "B2".toList =
      ["- [ ] T".toList, "      [clock::A1--B2]".toList, "next".toList] := by
  have h := claim_c1 ["- [ ] T".toList, "next".toList] 0 "A1".toList "B2".toList
    (by decide) (by decide) (by decide) (by decide) (by decide)
  rw [h]
  decide

end ClockKanban
